import Mathlib

/-!
Verification of the prettylittledata trend-signal engine.

Shallow embedding of the Python scripts
`scripts/analyze_prettydata.py`, `scripts/analyze_unsupervised.py` and
`scripts/build_signals.py`.  Counts and regression estimates are modelled
as exact rationals; the z-score pipeline of `build_signals.py`, which
takes a square root, is modelled over the reals.  Library calls whose
numerics are not reproducible (the p-value of a regression fit) are
passed in as explicit function arguments; everything else is translated
directly from the source.
-/

namespace PLD

/-! ## Generic list helpers (sorted-unique lists, mirroring `sorted(unique(...))`
and pandas `groupby` key ordering) -/

/-- Sorted list of the distinct elements of `l` (ascending), as produced by
`sorted(df[col].unique())` or by pandas `groupby` on a key column. -/
def dedupSort {α : Type} [LinearOrder α] [DecidableEq α] (l : List α) : List α :=
  List.insertionSort (· ≤ ·) l.dedup

theorem mem_dedupSort {α : Type} [LinearOrder α] [DecidableEq α] {l : List α} {a : α} :
    a ∈ dedupSort l ↔ a ∈ l := by
  unfold dedupSort
  rw [List.mem_insertionSort, List.mem_dedup]

theorem nodup_dedupSort {α : Type} [LinearOrder α] [DecidableEq α] (l : List α) :
    (dedupSort l).Nodup :=
  (List.perm_insertionSort _ _).nodup_iff.mpr l.nodup_dedup

theorem sorted_dedupSort {α : Type} [LinearOrder α] [DecidableEq α] (l : List α) :
    (dedupSort l).Sorted (· ≤ ·) :=
  List.sorted_insertionSort _ _

theorem pairwise_lt_dedupSort {α : Type} [LinearOrder α] [DecidableEq α] (l : List α) :
    (dedupSort l).Pairwise (· < ·) := by
  have hs := sorted_dedupSort l
  have hn := nodup_dedupSort l
  exact (List.Pairwise.and hs hn).imp (fun h => lt_of_le_of_ne h.1 h.2)

/-- Lexicographic comparison of strings on their character lists — the
codepoint order pandas and Python use for string keys.  It agrees with
`String` order (`String.le_iff_toList_le`) but, unlike `String.ltb`, reduces
in the kernel. -/
def strLe (a b : String) : Prop := a.data ≤ b.data

instance : DecidableRel strLe := fun a b =>
  inferInstanceAs (Decidable (a.data ≤ b.data))

instance : IsTotal String strLe := ⟨fun a b => le_total a.data b.data⟩

instance : IsTrans String strLe := ⟨fun _ _ _ h h2 => le_trans h h2⟩

theorem strLe_iff {a b : String} : strLe a b ↔ a ≤ b :=
  (String.le_iff_toList_le).symm

/-- Sorted list of the distinct strings of `l` (codepoint ascending). -/
def dedupSortStr (l : List String) : List String :=
  List.insertionSort strLe l.dedup

theorem mem_dedupSortStr {l : List String} {a : String} :
    a ∈ dedupSortStr l ↔ a ∈ l := by
  unfold dedupSortStr
  rw [List.mem_insertionSort, List.mem_dedup]

theorem nodup_dedupSortStr (l : List String) : (dedupSortStr l).Nodup :=
  (List.perm_insertionSort _ _).nodup_iff.mpr l.nodup_dedup

theorem sorted_dedupSortStr (l : List String) : (dedupSortStr l).Sorted strLe :=
  List.sorted_insertionSort _ _

theorem pairwise_lt_dedupSortStr (l : List String) :
    (dedupSortStr l).Pairwise (· < ·) := by
  have hs := sorted_dedupSortStr l
  have hn := nodup_dedupSortStr l
  refine (List.Pairwise.and hs hn).imp (fun h => ?_)
  exact lt_of_le_of_ne (strLe_iff.mp h.1) h.2

/-! ## `analyze_prettydata.top_or_sig` — the tiered ranker (claims C1, C2)

The source (lines 140-152):

    def top_or_sig(tr, direction="+", k=12):
        if tr.empty:
            return tr
        df = tr.copy()
        df["sig"] = df["p_value"] < 0.05
        if direction == "+":
            sig = df[(df.estimate > 0) & df.sig].sort_values("estimate", ascending=False)
            top = df[df.estimate > 0].nlargest(k, "estimate")
        else:
            sig = df[(df.estimate < 0) & df.sig].sort_values("estimate")
            top = df[df.estimate < 0].nsmallest(k, "estimate")
        outdf = sig if not sig.empty else top
        return outdf[["Term", "estimate", "p_value"]]
-/

/-- Row of the trend-results table `tr` fed to `top_or_sig`
(columns `Term`, `estimate`, `p_value`). -/
structure TrendRow where
  term : String
  estimate : ℚ
  p_value : ℚ
deriving DecidableEq, Repr

/-- Significance flag: `df["p_value"] < 0.05` (0.05 = 1/20). -/
def TrendRow.sig (r : TrendRow) : Prop := r.p_value < mkRat 1 20

instance : DecidablePred TrendRow.sig := fun r => by
  unfold TrendRow.sig; infer_instance

/-- Sort rows by `estimate` descending (`sort_values("estimate", ascending=False)`,
also `nlargest`). -/
def sortEstDesc (l : List TrendRow) : List TrendRow :=
  List.insertionSort (fun a b => b.estimate ≤ a.estimate) l

/-- Sort rows by `estimate` ascending (`sort_values("estimate")`, also `nsmallest`). -/
def sortEstAsc (l : List TrendRow) : List TrendRow :=
  List.insertionSort (fun a b => a.estimate ≤ b.estimate) l

/-- The significance tier: rows of the requested slope sign with `p_value < 0.05`,
sorted by slope magnitude.  No `k` cut is applied in the source. -/
def sigTier (tr : List TrendRow) (direction : String) : List TrendRow :=
  if direction = "+" then
    sortEstDesc (tr.filter (fun r => 0 < r.estimate ∧ r.sig))
  else
    sortEstAsc (tr.filter (fun r => r.estimate < 0 ∧ r.sig))

/-- The slope tier: rows of the requested slope sign, top `k` by slope magnitude
(`nlargest(k, "estimate")` / `nsmallest(k, "estimate")`). -/
def topTier (tr : List TrendRow) (direction : String) (k : ℕ) : List TrendRow :=
  if direction = "+" then
    (sortEstDesc (tr.filter (fun r => 0 < r.estimate))).take k
  else
    (sortEstAsc (tr.filter (fun r => r.estimate < 0))).take k

/-- Shallow embedding of `top_or_sig(tr, direction, k)`. -/
def top_or_sig (tr : List TrendRow) (direction : String) (k : ℕ) : List TrendRow :=
  if tr = [] then []
  else
    let sig := sigTier tr direction
    let top := topTier tr direction k
    if sig ≠ [] then sig else top

theorem sortEstDesc_eq_nil_iff {l : List TrendRow} : sortEstDesc l = [] ↔ l = [] := by
  constructor
  · intro h
    have hp : (sortEstDesc l).Perm l := List.perm_insertionSort _ l
    rw [h] at hp
    exact hp.symm.eq_nil
  · intro h; subst h; rfl

theorem sortEstAsc_eq_nil_iff {l : List TrendRow} : sortEstAsc l = [] ↔ l = [] := by
  constructor
  · intro h
    have hp : (sortEstAsc l).Perm l := List.perm_insertionSort _ l
    rw [h] at hp
    exact hp.symm.eq_nil
  · intro h; subst h; rfl

theorem length_sortEstDesc (l : List TrendRow) : (sortEstDesc l).length = l.length :=
  List.length_insertionSort _ _

theorem length_sortEstAsc (l : List TrendRow) : (sortEstAsc l).length = l.length :=
  List.length_insertionSort _ _

theorem filterPos_eq_nil_iff {tr : List TrendRow} :
    tr.filter (fun r => decide (0 < r.estimate)) = [] ↔ ¬ ∃ r ∈ tr, 0 < r.estimate := by
  rw [List.filter_eq_nil_iff]
  simp

theorem filterNeg_eq_nil_iff {tr : List TrendRow} :
    tr.filter (fun r => decide (r.estimate < 0)) = [] ↔ ¬ ∃ r ∈ tr, r.estimate < 0 := by
  rw [List.filter_eq_nil_iff]
  simp

/-- C1 — counterexample.  A trend table holding the single row
`("holiday lights", estimate 0, p_value 1)` — exactly the row the estimator
emits for a term that does have mentions but a flat or sparse series — yields
an empty rising report and an empty falling report: `top_or_sig` has no
third, volume-sorted tier, so the report can be empty while mentions exist. -/
theorem C1_counterexample :
    top_or_sig [⟨"holiday lights", 0, 1⟩] "+" 12 = [] ∧
    top_or_sig [⟨"holiday lights", 0, 1⟩] "-" 12 = [] := by decide

/-- C1 (amended) — the ranker has exactly two tiers (significant, then
slope-sign fallback) and no volume tier: for a positive cutoff `k`, the rising
report is non-empty iff some record has a positive estimate, and the falling
report is non-empty iff some record has a negative estimate.  Records of the
wrong or zero slope sign can never rescue an otherwise empty report. -/
theorem C1_two_tier_nonempty_iff (tr : List TrendRow) (k : ℕ) (hk : 0 < k) :
    (top_or_sig tr "+" k ≠ [] ↔ ∃ r ∈ tr, 0 < r.estimate) ∧
    (top_or_sig tr "-" k ≠ [] ↔ ∃ r ∈ tr, r.estimate < 0) := by
  by_cases htr : tr = []
  · subst htr
    simp [top_or_sig]
  · constructor
    · rw [top_or_sig, if_neg htr]
      by_cases hsig : sigTier tr "+" ≠ []
      · rw [if_pos hsig]
        simp only [ne_eq, hsig, not_false_iff, true_iff]
        rw [sigTier, if_pos rfl] at hsig
        have hfil : tr.filter (fun r => decide (0 < r.estimate ∧ r.sig)) ≠ [] := by
          intro h; exact hsig (by rw [sortEstDesc, h]; rfl)
        obtain ⟨r, hr⟩ := List.exists_mem_of_ne_nil _ hfil
        have := List.mem_filter.mp hr
        exact ⟨r, this.1, (of_decide_eq_true this.2).1⟩
      · rw [if_neg hsig]
        push_neg at hsig
        rw [topTier, if_pos rfl]
        constructor
        · intro htop
          have : sortEstDesc (tr.filter (fun r => decide (0 < r.estimate))) ≠ [] := by
            intro h; exact htop (by rw [h, List.take_nil])
          rw [ne_eq, sortEstDesc_eq_nil_iff, filterPos_eq_nil_iff, not_not] at this
          exact this
        · intro ⟨r, hrm, hrp⟩ h
          rw [List.take_eq_nil_iff] at h
          rcases h with h | h
          · omega
          · rw [sortEstDesc_eq_nil_iff, filterPos_eq_nil_iff] at h
            exact h ⟨r, hrm, hrp⟩
    · rw [top_or_sig, if_neg htr]
      have hplus : ("-" : String) ≠ "+" := by decide
      by_cases hsig : sigTier tr "-" ≠ []
      · rw [if_pos hsig]
        simp only [ne_eq, hsig, not_false_iff, true_iff]
        rw [sigTier, if_neg hplus] at hsig
        have hfil : tr.filter (fun r => decide (r.estimate < 0 ∧ r.sig)) ≠ [] := by
          intro h; exact hsig (by rw [sortEstAsc, h]; rfl)
        obtain ⟨r, hr⟩ := List.exists_mem_of_ne_nil _ hfil
        have := List.mem_filter.mp hr
        exact ⟨r, this.1, (of_decide_eq_true this.2).1⟩
      · rw [if_neg hsig]
        push_neg at hsig
        rw [topTier, if_neg hplus]
        constructor
        · intro htop
          have : sortEstAsc (tr.filter (fun r => decide (r.estimate < 0))) ≠ [] := by
            intro h; exact htop (by rw [h, List.take_nil])
          rw [ne_eq, sortEstAsc_eq_nil_iff, filterNeg_eq_nil_iff, not_not] at this
          exact this
        · intro ⟨r, hrm, hrp⟩ h
          rw [List.take_eq_nil_iff] at h
          rcases h with h | h
          · omega
          · rw [sortEstAsc_eq_nil_iff, filterNeg_eq_nil_iff] at h
            exact h ⟨r, hrm, hrp⟩

/-- C1 (amended) — witness: instantiation of the two-tier characterisation at a
concrete one-row table with a positive estimate and cutoff 12. -/
theorem C1_two_tier_nonempty_iff_witness :
    (top_or_sig [⟨"air fryer recipes", 2, 0⟩] "+" 12 ≠ [] ↔
      ∃ r ∈ [(⟨"air fryer recipes", 2, 0⟩ : TrendRow)], 0 < r.estimate) ∧
    (top_or_sig [⟨"air fryer recipes", 2, 0⟩] "-" 12 ≠ [] ↔
      ∃ r ∈ [(⟨"air fryer recipes", 2, 0⟩ : TrendRow)], r.estimate < 0) :=
  C1_two_tier_nonempty_iff [⟨"air fryer recipes", 2, 0⟩] 12 (by decide)

/-- C2 — counterexample.  With `k = 1` and two rows that are both significant
(`p_value = 0.01 < 0.05`) with positive estimates, `top_or_sig` returns both
rows: the significance tier is returned whole, without the top-`k` cut, so the
output length exceeds `k`. -/
theorem C2_counterexample :
    ¬ ((top_or_sig [⟨"a", 1, mkRat 1 100⟩, ⟨"b", 2, mkRat 1 100⟩] "+" 1).length ≤ 1) := by
  decide

/-- C2 (amended) — the output length of `top_or_sig` is bounded by `k` only in
the slope-fallback tier: when the significance tier is empty the length is
`min k` (number of records of the matching sign); when it is non-empty the
ranker returns every significant matching-sign record, so the length is the
full count of such records, which may exceed `k`. -/
theorem C2_length_characterisation (tr : List TrendRow) (k : ℕ) :
    ((top_or_sig tr "+" k).length =
      if sigTier tr "+" = [] then
        min k (tr.filter (fun r => decide (0 < r.estimate))).length
      else (tr.filter (fun r => decide (0 < r.estimate ∧ r.sig))).length) ∧
    ((top_or_sig tr "-" k).length =
      if sigTier tr "-" = [] then
        min k (tr.filter (fun r => decide (r.estimate < 0))).length
      else (tr.filter (fun r => decide (r.estimate < 0 ∧ r.sig))).length) := by
  have hplus : ("-" : String) ≠ "+" := by decide
  by_cases htr : tr = []
  · subst htr
    simp [top_or_sig, sigTier, sortEstDesc, sortEstAsc]
  · constructor
    · rw [top_or_sig, if_neg htr]
      by_cases hsig : sigTier tr "+" = []
      · rw [if_neg (by simpa using hsig), if_pos hsig, topTier, if_pos rfl]
        rw [List.length_take, length_sortEstDesc]
      · rw [if_pos hsig, if_neg hsig, sigTier, if_pos rfl, length_sortEstDesc]
    · rw [top_or_sig, if_neg htr]
      by_cases hsig : sigTier tr "-" = []
      · rw [if_neg (by simpa using hsig), if_pos hsig, topTier, if_neg hplus]
        rw [List.length_take, length_sortEstAsc]
      · rw [if_pos hsig, if_neg hsig, sigTier, if_neg hplus, length_sortEstAsc]

/-! ## `analyze_prettydata` trend estimator (lines 113-133, claims C3 and C6)

The source, per term:

    if sub.empty: out.append({... 0.0, 1.0}); continue
    x = pd.to_datetime(sub["period"])
    if len(sub) < 3 or sub["Count"].sum() == 0:
        out.append({... 0.0, 1.0}); continue
    xnum = (x - x.min()) / pd.Timedelta(days=1)
    X = sm.add_constant(xnum.values); y = sub["Count"].values
    try:
        model = sm.OLS(y, X).fit()
        est = float(model.params[1]); p = float(model.pvalues[1])
    except Exception:
        est, p = 0.0, 1.0

A per-term series is a list of `(period, Count)` pairs, the period measured in
days.  The p-value of the t-test is not reproducible in exact arithmetic, so
the library fit is passed in as a function argument; `olsFit` is its normal
(non-raising) behaviour, with the exact least-squares slope and an arbitrary
p-value function. -/

/-- Earliest period of a series (`x.min()`), in days. -/
def minPeriod (sub : List (ℤ × ℚ)) : ℤ := ((sub.map Prod.fst).min?).getD 0

/-- Regression x-axis: days since the first bucket
(`xnum = (x - x.min()) / pd.Timedelta(days=1)`). -/
def xdays (sub : List (ℤ × ℚ)) : List ℚ :=
  sub.map (fun r => ((r.1 - minPeriod sub : ℤ) : ℚ))

/-- Exact ordinary-least-squares slope of y against x (the coefficient
`model.params[1]` of `sm.OLS(y, add_constant(x)).fit()`). -/
def olsSlope (x y : List ℚ) : ℚ :=
  let n : ℚ := x.length
  let xbar := x.sum / n
  let ybar := y.sum / n
  let sxx := (x.map (fun xi => (xi - xbar) * (xi - xbar))).sum
  let sxy := ((x.zip y).map (fun p => (p.1 - xbar) * (p.2 - ybar))).sum
  sxy / sxx

/-- The library fit when no numerical failure occurs: exact OLS slope together
with a p-value supplied by the (unmodelled) t-test `pfit`. -/
def olsFit (pfit : List ℚ → List ℚ → ℚ) (x y : List ℚ) :
    Except String (ℚ × ℚ) :=
  Except.ok (olsSlope x y, pfit x y)

/-- Shallow embedding of the per-term estimation step of `analyze`:
the sparse-series guard, then the guarded library fit with the
`try/except` fallback to `(0, 1)`. -/
def analyzeEstimate (fit : List ℚ → List ℚ → Except String (ℚ × ℚ))
    (sub : List (ℤ × ℚ)) : ℚ × ℚ :=
  if sub = [] then (0, 1)
  else if sub.length < 3 ∨ (sub.map Prod.snd).sum = 0 then (0, 1)
  else
    match fit (xdays sub) (sub.map Prod.snd) with
    | Except.ok ep => ep
    | Except.error _ => (0, 1)

/-- C3 — counterexample.  The series over three weekly buckets (days 0, 7, 14)
with counts (1, 1, 0) has only 2 nonzero buckets and 2 total mentions, yet the
code attempts the fit — its guard counts all buckets of the series, not the
nonzero ones — and emits the nonzero slope -1/14, not 0.0. -/
theorem C3_counterexample :
    ((analyzeEstimate (olsFit (fun _ _ => 1)) [(0, 1), (7, 1), (14, 0)]).1
        = -(1/14)
      ∧ (analyzeEstimate (olsFit (fun _ _ => 1)) [(0, 1), (7, 1), (14, 0)]).1
        ≠ 0) ∧
    (([((0:ℤ), (1:ℚ)), (7, 1), (14, 0)].filter (fun r => r.2 ≠ 0)).length < 3) ∧
    (([((0:ℤ), (1:ℚ)), (7, 1), (14, 0)].map Prod.snd).sum ≠ 0) := by
  have hval : (analyzeEstimate (olsFit (fun _ _ => 1)) [(0, 1), (7, 1), (14, 0)]).1
      = -(1/14) := by
    norm_num [analyzeEstimate, olsFit, olsSlope, xdays, minPeriod]
    rw [if_neg (List.cons_ne_nil _ _)]
  refine ⟨⟨hval, ?_⟩, by decide, by norm_num⟩
  rw [hval]
  norm_num

/-- C3 (amended) — the estimator emits slope = 0 and p_value = 1 exactly, with
no fit attempted, when the series has fewer than 3 buckets in total (zero-count
buckets included) or zero total mentions; the guard does not count nonzero
buckets. -/
theorem C3_sparse_guard (fit : List ℚ → List ℚ → Except String (ℚ × ℚ))
    (sub : List (ℤ × ℚ))
    (h : sub.length < 3 ∨ (sub.map Prod.snd).sum = 0) :
    analyzeEstimate fit sub = (0, 1) := by
  unfold analyzeEstimate
  by_cases hnil : sub = []
  · rw [if_pos hnil]
  · rw [if_neg hnil, if_pos h]

/-- C3 (amended) — witness: a two-bucket series with nonzero mentions falls
under the sparse guard and yields exactly (0, 1). -/
theorem C3_sparse_guard_witness :
    analyzeEstimate (olsFit (fun _ _ => 1)) [(0, 5), (7, 9)] = (0, 1) :=
  C3_sparse_guard (olsFit (fun _ _ => 1)) [(0, 5), (7, 9)] (Or.inl (by decide))

/-! ## `analyze_unsupervised` weekly counts and slope table (claims C5, C6)

The source:

    def weekfloor(ts):
        dt = datetime.fromtimestamp(int(ts), tz=timezone.utc)
        return (dt - pd.to_timedelta(dt.weekday(), unit='D')).date()

    def counts_by_week(df, vec):
        df["period"] = df["created_utc"].apply(weekfloor)
        weeks = sorted(df["period"].unique())
        X = vec.transform(df["doc"]); vocab = vec.get_feature_names_out()
        rec = []
        for w in weeks:
            idx = np.where(df["period"].values == w)[0]
            if len(idx) == 0: continue
            row = X[idx, :].sum(axis=0).A1
            for j in np.nonzero(row)[0]:
                rec.append((w, vocab[j], int(row[j])))
        return pd.DataFrame(rec, columns=["period", "Term", "Count"])

    def slope_table(ct):
        weeks = sorted(ct["period"].unique()); idx = {w: i for i, w in enumerate(weeks)}
        rec = []
        for term, g in ct.groupby("Term"):
            y = np.zeros(len(weeks))
            for _, r in g.iterrows(): y[idx[r["period"]]] = r["Count"]
            x = np.arange(len(weeks))
            if y.sum() == 0: continue
            lr = linregress(x, y)
            rec.append([term, int(y.sum()), float(lr.slope), float(lr.pvalue), int((y > 0).sum())])
        return ...

Timestamps are epoch seconds (`ℤ`); a week bucket is identified by the day
number of its Monday.  A document carries the phrase multiset the fitted
vectorizer assigns to it (`X`'s row), with the vectorizer vocabulary passed in
as a list. -/

/-- Monday-aligned week floor of an epoch-second timestamp, as a day number:
day 0 (1970-01-01) is a Thursday, so `weekday = (d + 3) mod 7`.  Python `//`
and `%` are floor division and nonnegative remainder, `Int.ediv`/`Int.emod`
for a positive divisor. -/
def weekfloor (ts : ℤ) : ℤ :=
  let d := Int.ediv ts 86400
  d - Int.emod (d + 3) 7

/-- Document row as consumed by `counts_by_week`: an epoch timestamp and the
phrase multiset of the vectorized document text. -/
structure UDoc where
  ts : ℤ
  phrases : List String
deriving DecidableEq, Repr

/-- Bucket of a document (`df["period"]`). -/
def docPeriod (d : UDoc) : ℤ := weekfloor d.ts

/-- Observed buckets: `weeks = sorted(df["period"].unique())`. -/
def docWeeks (docs : List UDoc) : List ℤ := dedupSort (docs.map docPeriod)

/-- Total occurrences of vocabulary term `t` in the documents of bucket `w`
(`X[idx, :].sum(axis=0)` at the column of `t`). -/
def weekCount (docs : List UDoc) (w : ℤ) (t : String) : ℕ :=
  ((docs.filter (fun d => docPeriod d = w)).map (fun d => d.phrases.count t)).sum

/-- Rows of the per-week counts table built by `counts_by_week`: one
`(period, Term, Count)` row per bucket and per vocabulary term with a nonzero
count in that bucket. -/
def ctRows (vocab : List String) (docs : List UDoc) : List (ℤ × String × ℕ) :=
  (docWeeks docs).flatMap (fun w =>
    vocab.filterMap (fun t =>
      if 0 < weekCount docs w t then some (w, t, weekCount docs w t) else none))

/-- Buckets of the counts table: `weeks = sorted(ct["period"].unique())` in
`slope_table`. -/
def ctWeeks (ct : List (ℤ × String × ℕ)) : List ℤ := dedupSort (ct.map Prod.fst)

/-- Terms of the counts table, in pandas `groupby` order (sorted unique). -/
def ctTerms (ct : List (ℤ × String × ℕ)) : List String :=
  dedupSortStr (ct.map (fun r => r.2.1))

/-- Entry of the filled y vector at bucket `w` for term `t`: the recorded
count, or 0 where the table has no row (`y = np.zeros(...)` then
`y[idx[r["period"]]] = r["Count"]`; `(w, t)` keys are unique in the table
produced by `counts_by_week`, so the first matching row is the assignment). -/
def ctCount (ct : List (ℤ × String × ℕ)) (t : String) (w : ℤ) : ℕ :=
  match ct.find? (fun r => r.1 = w ∧ r.2.1 = t) with
  | some r => r.2.2
  | none => 0

/-- The dense-over-table y vector `slope_table` regresses for term `t`. -/
def seriesY (ct : List (ℤ × String × ℕ)) (t : String) : List ℕ :=
  (ctWeeks ct).map (ctCount ct t)

/-- Row of the slope table (`[term, int(y.sum()), slope, pvalue,
int((y>0).sum())]`). -/
structure STRow where
  term : String
  total : ℕ
  slope : ℚ
  pvalue : ℚ
  weeks_present : ℕ
deriving DecidableEq, Repr

/-- Shallow embedding of `scipy.stats.linregress`: raises when all x values
are identical (and there is more than one), otherwise runs the numerical fit
`fit`, whose own failures surface as `Except.error`. -/
def linregressE (fit : List ℚ → List ℚ → Except String (ℚ × ℚ))
    (x y : List ℚ) : Except String (ℚ × ℚ) :=
  if 1 < x.length ∧ ∀ xi ∈ x, xi = x.headI then
    Except.error "all x values are identical"
  else fit x y

/-- Regression x-axis of `slope_table`: `x = np.arange(len(weeks))` — bucket
indices, not calendar positions. -/
def stX (ct : List (ℤ × String × ℕ)) : List ℚ :=
  (List.range (ctWeeks ct).length).map (fun i => (i : ℚ))

/-- One `slope_table` loop iteration for term `t`: skip a zero-total term,
otherwise fit; there is no `try/except` around `linregress`, so a fit error
escapes the loop. -/
def slopeRow (fit : List ℚ → List ℚ → Except String (ℚ × ℚ))
    (ct : List (ℤ × String × ℕ)) (t : String) :
    Except String (Option STRow) :=
  let y := seriesY ct t
  if y.sum = 0 then Except.ok none
  else
    match linregressE fit (stX ct) (y.map (fun c => (c : ℚ))) with
    | Except.ok sp =>
        Except.ok (some ⟨t, y.sum, sp.1, sp.2, (y.filter (fun c => 0 < c)).length⟩)
    | Except.error e => Except.error e

/-- Shallow embedding of `slope_table`: the whole batch fails as soon as one
term's fit fails. -/
def slope_table (fit : List ℚ → List ℚ → Except String (ℚ × ℚ))
    (ct : List (ℤ × String × ℕ)) : Except String (List STRow) := do
  let rows ← (ctTerms ct).mapM (slopeRow fit ct)
  return rows.reduceOption

/-- Characterisation of the rows of the counts table: a row is present exactly
for an observed bucket and a vocabulary term with a nonzero count there, and
its recorded count is the document-level count. -/
theorem mem_ctRows {vocab : List String} {docs : List UDoc} {r : ℤ × String × ℕ} :
    r ∈ ctRows vocab docs ↔
      r.1 ∈ docWeeks docs ∧ r.2.1 ∈ vocab ∧ 0 < weekCount docs r.1 r.2.1 ∧
        r.2.2 = weekCount docs r.1 r.2.1 := by
  obtain ⟨w, t, c⟩ := r
  simp only [ctRows, List.mem_flatMap, List.mem_filterMap]
  constructor
  · rintro ⟨w', hw', t', ht', hif⟩
    by_cases h : 0 < weekCount docs w' t'
    · rw [if_pos h] at hif
      obtain ⟨rfl, rfl, rfl⟩ : w' = w ∧ t' = t ∧ weekCount docs w' t' = c := by
        simpa using hif
      exact ⟨hw', ht', h, rfl⟩
    · rw [if_neg h] at hif
      cases hif
  · rintro ⟨hw, ht, hpos, hc⟩
    exact ⟨w, hw, t, ht, by rw [if_pos hpos, hc]⟩

/-- Corpus for the C5 counterexample: documents in the Monday-aligned weekly
buckets 4, 11 and 25 (day numbers since the epoch); the vocabulary phrase
"x y" occurs in weeks 4 and 25, and the week-11 document contains no counted
phrase. -/
def c5docs : List UDoc :=
  [⟨4 * 86400, ["x y"]⟩, ⟨11 * 86400, []⟩, ⟨25 * 86400, ["x y"]⟩]

/-- C5 — counterexample.  Bucket 11 is a Monday-aligned bucket, holds a
document of the corpus, and lies strictly inside the observed horizon
(buckets 4 … 25), yet the counts table has no row for it, so the series used
for trend estimation is `[1, 1]` over the index-spaced weeks `[4, 25]`: no
entry (not even a zero) exists for bucket 11 — the series has a gap over the
observed horizon. -/
theorem C5_counterexample :
    "x y" ∈ (ctRows ["x y"] c5docs).map (fun r => r.2.1) ∧
    (11 : ℤ) ∈ c5docs.map docPeriod ∧
    weekfloor (11 * 86400) = 11 ∧
    ctWeeks (ctRows ["x y"] c5docs) = [4, 25] ∧
    (11 : ℤ) ∉ ctWeeks (ctRows ["x y"] c5docs) ∧
    seriesY (ctRows ["x y"] c5docs) "x y" = [1, 1] := by decide

/-- C5 (amended) — the series is dense over the buckets of the counts table
only: it has exactly one entry per table bucket, and at each table bucket the
value is the true document-level mention count of the phrase (0 where the
phrase has no mentions there).  Buckets in which no vocabulary phrase has a
nonzero count — including buckets holding documents — do not appear, so the
series may skip calendar weeks of the observed horizon. -/
theorem C5_dense_over_table_weeks (vocab : List String) (docs : List UDoc)
    (t : String) (ht : t ∈ vocab) :
    (seriesY (ctRows vocab docs) t).length = (ctWeeks (ctRows vocab docs)).length ∧
    ∀ w ∈ ctWeeks (ctRows vocab docs),
      ctCount (ctRows vocab docs) t w = weekCount docs w t := by
  refine ⟨List.length_map _ _, ?_⟩
  intro w hw
  rw [ctWeeks, mem_dedupSort, List.mem_map] at hw
  obtain ⟨r0, hr0, hr0w⟩ := hw
  have hr0c := mem_ctRows.mp hr0
  rw [ctCount]
  by_cases h0 : 0 < weekCount docs w t
  · have hmem : ((w, t, weekCount docs w t) : ℤ × String × ℕ) ∈ ctRows vocab docs :=
      mem_ctRows.mpr ⟨hr0w ▸ hr0c.1, ht, h0, rfl⟩
    cases hfind : (ctRows vocab docs).find? (fun r => r.1 = w ∧ r.2.1 = t) with
    | none =>
        exfalso
        rw [List.find?_eq_none] at hfind
        exact absurd (by simp) (hfind _ hmem)
    | some r =>
        have hrmem := List.mem_of_find?_eq_some hfind
        have hkeys : r.1 = w ∧ r.2.1 = t := by simpa using List.find?_some hfind
        have hval := (mem_ctRows.mp hrmem).2.2.2
        rw [hkeys.1, hkeys.2] at hval
        exact hval
  · cases hfind : (ctRows vocab docs).find? (fun r => r.1 = w ∧ r.2.1 = t) with
    | none =>
        show 0 = weekCount docs w t
        omega
    | some r =>
        exfalso
        have hrmem := List.mem_of_find?_eq_some hfind
        have hkeys : r.1 = w ∧ r.2.1 = t := by simpa using List.find?_some hfind
        have hpos := (mem_ctRows.mp hrmem).2.2.1
        rw [hkeys.1, hkeys.2] at hpos
        exact h0 hpos

/-- C5 (amended) — witness: the density-over-table-weeks statement evaluated
on the counterexample corpus. -/
theorem C5_dense_over_table_weeks_witness :
    (seriesY (ctRows ["x y"] c5docs) "x y").length
        = (ctWeeks (ctRows ["x y"] c5docs)).length ∧
    ∀ w ∈ ctWeeks (ctRows ["x y"] c5docs),
      ctCount (ctRows ["x y"] c5docs) "x y" w = weekCount c5docs w "x y" :=
  C5_dense_over_table_weeks ["x y"] c5docs "x y" (by decide)

/-- A numerically failing library fit, as contemplated by the error-handling
design (claim C6). -/
def fitFail : List ℚ → List ℚ → Except String (ℚ × ℚ) :=
  fun _ _ => Except.error "numerical failure in fit"

/-- C6 — counterexample.  In `slope_table` the call to `linregress` is not
protected by any `try/except`: when the fit of the single phrase "air fryer"
fails numerically, the failure propagates out of the estimator and the whole
batch returns an error instead of a slope-0/p-1 row. -/
theorem C6_counterexample :
    slope_table fitFail [(4, "air fryer", 1)]
      = Except.error "numerical failure in fit" := by rfl

/-- C6 (amended) — in `analyze_prettydata` the claim does hold: the `try/except`
around the OLS fit converts any fit failure into slope = 0, p_value = 1, and
the estimator never lets an exception escape. -/
theorem C6_analyze_estimator_catches
    (fit : List ℚ → List ℚ → Except String (ℚ × ℚ)) (sub : List (ℤ × ℚ))
    (e : String) (h : fit (xdays sub) (sub.map Prod.snd) = Except.error e) :
    analyzeEstimate fit sub = (0, 1) := by
  unfold analyzeEstimate
  by_cases hnil : sub = []
  · rw [if_pos hnil]
  · rw [if_neg hnil]
    by_cases hsp : sub.length < 3 ∨ (sub.map Prod.snd).sum = 0
    · rw [if_pos hsp]
    · rw [if_neg hsp, h]

/-- C6 (amended) — witness: a three-bucket series with nonzero counts reaches
the fit; when the fit fails the estimator still returns exactly (0, 1). -/
theorem C6_analyze_estimator_catches_witness :
    analyzeEstimate fitFail [(0, 2), (7, 3), (14, 4)] = (0, 1) :=
  C6_analyze_estimator_catches fitFail [(0, 2), (7, 3), (14, 4)]
    "numerical failure in fit" rfl

/-! ## `build_signals` phrase canonicalization (claim C10)

The source (lines 59-63, 88-93):

    SYNONYMS = {
        "quiet luxury": ["stealth wealth"],
        "art deco": ["art-deco"],
        "y2k": ["y2k aesthetic"],
    }

    def canonicalize(phrase):
        p = phrase.strip()
        for canon, variants in SYNONYMS.items():
            if p == canon or p in variants:
                return canon
        return p

Python dicts iterate in insertion order, so the table is a list of
(canonical, variants) pairs and the loop is a first-match search. -/

/-- Both-ends strip of the characters satisfying `p` (Python
`str.strip()` / `str.strip(chars)`). -/
def stripEnds (p : Char → Bool) (s : List Char) : List Char :=
  ((s.dropWhile p).reverse.dropWhile p).reverse

/-- Python `phrase.strip()`: strip surrounding whitespace. -/
def pstrip (s : String) : String := ⟨stripEnds Char.isWhitespace s.data⟩

/-- The synonym table, in insertion order. -/
def SYNONYMS : List (String × List String) :=
  [("quiet luxury", ["stealth wealth"]),
   ("art deco", ["art-deco"]),
   ("y2k", ["y2k aesthetic"])]

/-- Shallow embedding of `canonicalize(phrase)`. -/
def canonicalize (phrase : String) : String :=
  let p := pstrip phrase
  match SYNONYMS.find? (fun cv => p = cv.1 ∨ p ∈ cv.2) with
  | some cv => cv.1
  | none => p

theorem dropWhile_idem (p : Char → Bool) (l : List Char) :
    (l.dropWhile p).dropWhile p = l.dropWhile p := by
  induction l with
  | nil => rfl
  | cons a l ih =>
      by_cases h : p a
      · simp [List.dropWhile_cons, h, ih]
      · simp [List.dropWhile_cons, h]

theorem dropWhile_eq_self_of_prefix (p : Char → Bool) {l t : List Char}
    (ht : t <+: l) (hl : l.dropWhile p = l) : t.dropWhile p = t := by
  cases t with
  | nil => rfl
  | cons a t =>
      obtain ⟨rest, hrest⟩ := ht
      have hpa : ¬ p a = true := by
        intro hpa
        rw [← hrest] at hl
        rw [List.cons_append, List.dropWhile_cons, if_pos hpa] at hl
        have hle := (List.dropWhile_sublist (p := p) (l := t ++ rest)).length_le
        rw [hl, List.length_cons] at hle
        omega
      simp [List.dropWhile_cons, hpa]

theorem stripEnds_idem (p : Char → Bool) (s : List Char) :
    stripEnds p (stripEnds p s) = stripEnds p s := by
  set s1 := s.dropWhile p with hs1
  have hs1d : s1.dropWhile p = s1 := dropWhile_idem p s
  have hpre : stripEnds p s <+: s1 := by
    have h := List.reverse_prefix.mpr (List.dropWhile_suffix (l := s1.reverse) p)
    rw [List.reverse_reverse] at h
    simpa [stripEnds, ← hs1] using h
  have h1 : (stripEnds p s).dropWhile p = stripEnds p s :=
    dropWhile_eq_self_of_prefix p hpre hs1d
  have h2 : ((stripEnds p s).reverse).dropWhile p = (stripEnds p s).reverse := by
    rw [stripEnds, ← hs1, List.reverse_reverse]
    exact dropWhile_idem p s1.reverse
  rw [stripEnds, h1, h2, List.reverse_reverse]

theorem pstrip_idem (s : String) : pstrip (pstrip s) = pstrip s := by
  show (⟨stripEnds Char.isWhitespace (stripEnds Char.isWhitespace s.data)⟩ : String) = _
  rw [stripEnds_idem]
  rfl

/-- C10 — canonicalization is idempotent: every canonical key of the synonym
table maps to itself (no key is a variant of an earlier entry), and a phrase
matched by no entry comes back as its own strip, which strips to itself and
again matches no entry. -/
theorem C10_canonicalize_idempotent (p : String) :
    canonicalize (canonicalize p) = canonicalize p := by
  cases hfind : SYNONYMS.find? (fun cv => pstrip p = cv.1 ∨ pstrip p ∈ cv.2) with
  | some cv =>
      have hc : canonicalize p = cv.1 := by
        simp only [canonicalize, hfind]
      rw [hc]
      have hcv : cv = ("quiet luxury", ["stealth wealth"]) ∨
          cv = ("art deco", ["art-deco"]) ∨ cv = ("y2k", ["y2k aesthetic"]) := by
        simpa [SYNONYMS] using List.mem_of_find?_eq_some hfind
      rcases hcv with rfl | rfl | rfl <;> decide
  | none =>
      have hc : canonicalize p = pstrip p := by
        simp only [canonicalize, hfind]
      rw [hc, canonicalize, pstrip_idem, hfind]

/-! ## `build_signals` dominant category (claim C9)

The source (lines 219-223):

    topcat = (phr[phr["date"]>=w28]
              .groupby(["phrase","category"]).size().reset_index(name="c")
              .sort_values(["phrase","c"], ascending=[True,False])
              .drop_duplicates("phrase"))

`groupby` (with its default `sort=True`) emits one row per distinct
(phrase, category) pair, ordered ascending; the multi-key `sort_values` is a
stable lexsort, so within a phrase the rows are ordered by count descending
with ties left in ascending category order; `drop_duplicates` keeps the first
row of each phrase.  Per phrase this is: the head of a stable
count-descending sort of the category-ascending count rows. -/

/-- Mention row of the phrase table `phr`, with the fields `topcat` uses. -/
structure Mention where
  phrase : String
  category : String
  date : ℤ
deriving DecidableEq, Repr

/-- Windowed mentions of phrase `p`: `phr[phr["date"] >= w28]` restricted to
the rows of `p`. -/
def windowMentions (phr : List Mention) (w28 : ℤ) (p : String) : List Mention :=
  phr.filter (fun m => w28 ≤ m.date ∧ m.phrase = p)

/-- Number of windowed mentions of `p` carrying category `c` (the `c` column
of the grouped table). -/
def catCount (phr : List Mention) (w28 : ℤ) (p c : String) : ℕ :=
  ((windowMentions phr w28 p).filter (fun m => m.category = c)).length

/-- Distinct categories of `p`'s windowed mentions, ascending (the `groupby`
key order). -/
def catsOf (phr : List Mention) (w28 : ℤ) (p : String) : List String :=
  dedupSortStr ((windowMentions phr w28 p).map Mention.category)

/-- The grouped rows for phrase `p`: (category, count), category ascending. -/
def catCountRows (phr : List Mention) (w28 : ℤ) (p : String) : List (String × ℕ) :=
  (catsOf phr w28 p).map (fun c => (c, catCount phr w28 p c))

/-- Sort key of `sort_values(["phrase","c"], ascending=[True,False])` within a
phrase: count descending; the non-strict comparison makes insertion sort
stable, as pandas' lexsort is. -/
def byCountDesc : (String × ℕ) → (String × ℕ) → Prop := fun a b => b.2 ≤ a.2

instance : DecidableRel byCountDesc := fun a b =>
  inferInstanceAs (Decidable (b.2 ≤ a.2))

/-- Dominant category of phrase `p` assigned by the `topcat` merge:
head of the stable count-descending resort, i.e. the row
`drop_duplicates("phrase")` keeps. -/
def topcat (phr : List Mention) (w28 : ℤ) (p : String) : Option String :=
  ((List.insertionSort byCountDesc (catCountRows phr w28 p)).head?).map Prod.fst

/-- Head of a stable count-descending insertion sort of rows with strictly
increasing keys: the earliest row of maximal count — so, among tied maximal
counts, the one with the least key. -/
theorem head_insertionSort_byCountDesc (l : List (String × ℕ))
    (hpw : l.Pairwise (fun a b => a.1 < b.1)) (hne : l ≠ []) :
    ∃ m, (List.insertionSort byCountDesc l).head? = some m ∧
      m ∈ l ∧ (∀ x ∈ l, x.2 ≤ m.2) ∧ (∀ x ∈ l, x.2 = m.2 → m.1 ≤ x.1) := by
  induction l with
  | nil => exact absurd rfl hne
  | cons a l ih =>
      by_cases hl0 : l = []
      · subst hl0
        refine ⟨a, rfl, List.mem_singleton_self a, ?_, ?_⟩
        · intro x hx
          rw [List.mem_singleton] at hx
          subst hx; exact le_refl _
        · intro x hx _
          rw [List.mem_singleton] at hx
          subst hx; exact le_refl _
      · obtain ⟨m', hm'h, hm'mem, hm'max, hm'tie⟩ := ih (List.Pairwise.of_cons hpw) hl0
        obtain ⟨t, ht⟩ : ∃ t, List.insertionSort byCountDesc l = m' :: t := by
          cases hs : List.insertionSort byCountDesc l with
          | nil => rw [hs] at hm'h; cases hm'h
          | cons b t =>
              rw [hs] at hm'h
              have hb : b = m' := by simpa using hm'h
              exact ⟨t, congrArg (fun x => x :: t) hb⟩
        have hsort : List.insertionSort byCountDesc (a :: l)
            = List.orderedInsert byCountDesc a (m' :: t) := by
          show List.orderedInsert byCountDesc a (List.insertionSort byCountDesc l) = _
          rw [ht]
        by_cases hr : m'.2 ≤ a.2
        · refine ⟨a, ?_, List.mem_cons_self a l, ?_, ?_⟩
          · rw [hsort, List.orderedInsert, if_pos (show byCountDesc a m' from hr)]
            rfl
          · intro x hx
            rcases List.mem_cons.mp hx with rfl | hx'
            · exact le_refl _
            · exact (hm'max x hx').trans hr
          · intro x hx _
            rcases List.mem_cons.mp hx with rfl | hx'
            · exact le_refl _
            · exact le_of_lt (List.rel_of_pairwise_cons hpw hx')
        · have hlt : a.2 < m'.2 := Nat.lt_of_not_le hr
          refine ⟨m', ?_, List.mem_cons_of_mem a hm'mem, ?_, ?_⟩
          · rw [hsort, List.orderedInsert, if_neg (show ¬ byCountDesc a m' from hr)]
            rfl
          · intro x hx
            rcases List.mem_cons.mp hx with rfl | hx'
            · exact le_of_lt hlt
            · exact hm'max x hx'
          · intro x hx hxe
            rcases List.mem_cons.mp hx with rfl | hx'
            · exact absurd hxe (Nat.ne_of_lt hlt)
            · exact hm'tie x hx' hxe

/-- A category with a positive windowed count appears among the grouped
categories. -/
theorem mem_catsOf_of_catCount_pos {phr : List Mention} {w28 : ℤ} {p c : String}
    (h : 0 < catCount phr w28 p c) : c ∈ catsOf phr w28 p := by
  rw [catCount] at h
  obtain ⟨m, hm⟩ := List.exists_mem_of_ne_nil _ (List.ne_nil_of_length_pos h)
  have hm' := List.mem_filter.mp hm
  rw [catsOf, mem_dedupSortStr, List.mem_map]
  exact ⟨m, hm'.1, of_decide_eq_true hm'.2⟩

/-- A grouped category has at least one windowed mention. -/
theorem catCount_pos_of_mem_catsOf {phr : List Mention} {w28 : ℤ} {p c : String}
    (h : c ∈ catsOf phr w28 p) : 0 < catCount phr w28 p c := by
  rw [catsOf, mem_dedupSortStr, List.mem_map] at h
  obtain ⟨m, hm, hmc⟩ := h
  rw [catCount, List.length_pos]
  refine List.ne_nil_of_mem (a := m) ?_
  rw [List.mem_filter]
  exact ⟨hm, by rw [hmc]; simp⟩

/-- C9 — the dominant category `topcat` assigns to a phrase with at least one
windowed mention is a mentioned category whose windowed mention count is
maximal over all categories, and among the categories tied at that maximal
count it is the alphabetically first. -/
theorem C9_dominant_category (phr : List Mention) (w28 : ℤ) (p : String)
    (h : ∃ m ∈ phr, m.phrase = p ∧ w28 ≤ m.date) :
    ∃ c, topcat phr w28 p = some c ∧
      0 < catCount phr w28 p c ∧
      (∀ c' : String, catCount phr w28 p c' ≤ catCount phr w28 p c) ∧
      (∀ c' : String, catCount phr w28 p c' = catCount phr w28 p c → c ≤ c') := by
  obtain ⟨m0, hm0, hm0p, hm0d⟩ := h
  have hm0w : m0 ∈ windowMentions phr w28 p := by
    rw [windowMentions, List.mem_filter]
    exact ⟨hm0, by simp [hm0p, hm0d]⟩
  have hcats : m0.category ∈ catsOf phr w28 p := by
    rw [catsOf, mem_dedupSortStr, List.mem_map]
    exact ⟨m0, hm0w, rfl⟩
  have hrows : catCountRows phr w28 p ≠ [] := by
    rw [catCountRows]
    intro hc
    rw [List.map_eq_nil_iff] at hc
    rw [hc] at hcats
    cases hcats
  have hpw : (catCountRows phr w28 p).Pairwise (fun a b => a.1 < b.1) := by
    rw [catCountRows, List.pairwise_map]
    exact pairwise_lt_dedupSortStr _
  obtain ⟨mrow, hhead, hmem, hmax, htie⟩ :=
    head_insertionSort_byCountDesc (catCountRows phr w28 p) hpw hrows
  rw [catCountRows, List.mem_map] at hmem
  obtain ⟨c, hc, hcrow⟩ := hmem
  refine ⟨c, ?_, catCount_pos_of_mem_catsOf hc, ?_, ?_⟩
  · rw [topcat, hhead, ← hcrow]
    rfl
  · intro c'
    by_cases hc' : c' ∈ catsOf phr w28 p
    · have := hmax (c', catCount phr w28 p c') (by
        rw [catCountRows, List.mem_map]; exact ⟨c', hc', rfl⟩)
      rw [← hcrow] at this
      exact this
    · have : ¬ 0 < catCount phr w28 p c' := fun hpos =>
        hc' (mem_catsOf_of_catCount_pos hpos)
      omega
  · intro c' hc'eq
    have hc'pos : 0 < catCount phr w28 p c' := by
      rw [hc'eq]
      exact catCount_pos_of_mem_catsOf hc
    have hc'mem := mem_catsOf_of_catCount_pos hc'pos
    have := htie (c', catCount phr w28 p c') (by
        rw [catCountRows, List.mem_map]; exact ⟨c', hc'mem, rfl⟩)
      (by rw [← hcrow]; exact hc'eq)
    rw [← hcrow] at this
    exact this

/-- C9 — witness: two windowed mentions of "denim maxi" in categories "fashion"
and "design" with equal counts; the theorem instantiates, and `topcat` indeed
picks the alphabetically first of the tied categories, "design". -/
theorem C9_dominant_category_witness :
    (∃ c, topcat [⟨"denim maxi", "fashion", 10⟩, ⟨"denim maxi", "design", 12⟩] 0
        "denim maxi" = some c ∧
      0 < catCount [⟨"denim maxi", "fashion", 10⟩, ⟨"denim maxi", "design", 12⟩] 0
        "denim maxi" c ∧
      (∀ c' : String,
        catCount [⟨"denim maxi", "fashion", 10⟩, ⟨"denim maxi", "design", 12⟩] 0
          "denim maxi" c' ≤
        catCount [⟨"denim maxi", "fashion", 10⟩, ⟨"denim maxi", "design", 12⟩] 0
          "denim maxi" c) ∧
      (∀ c' : String,
        catCount [⟨"denim maxi", "fashion", 10⟩, ⟨"denim maxi", "design", 12⟩] 0
          "denim maxi" c' =
        catCount [⟨"denim maxi", "fashion", 10⟩, ⟨"denim maxi", "design", 12⟩] 0
          "denim maxi" c → c ≤ c')) ∧
    topcat [⟨"denim maxi", "fashion", 10⟩, ⟨"denim maxi", "design", 12⟩] 0
        "denim maxi" = some "design" :=
  ⟨C9_dominant_category [⟨"denim maxi", "fashion", 10⟩, ⟨"denim maxi", "design", 12⟩]
      0 "denim maxi" ⟨⟨"denim maxi", "fashion", 10⟩, by decide, by decide⟩,
   by decide⟩

/-! ## `build_signals` composite z-score ranking (claim C4)

The source (lines 153-156, 213-216, 241-257):

    def zscore(s):
        if len(s)==0: return []
        arr = np.array(s, dtype=float)
        return list((arr - arr.mean()) / (arr.std(ddof=1) if arr.std(ddof=1)>0 else 1.0))

    agg["recency"] = (agg["mentions_7d"] / agg["mentions_28d"].replace(0, np.nan)).fillna(0)
    agg["growth"]  = (agg["mentions_7d"] / (agg["mentions_28d"]/4).replace(0, np.nan)).fillna(0)

    agg["interest_score"] = (agg["z_volume"] + 1.5*agg["z_growth"]
                             + 0.5*agg["z_breadth"] + 0.5*agg["z_recency"])

Metric columns are real-valued.  For a single-element column NumPy's
`std(ddof=1)` is NaN and `NaN > 0` is false, so the code divides by 1.0; the
real-division convention 0/0 = 0 makes `std1` equal 0 on that path, which
selects the same division by 1. -/

noncomputable section

/-- Population mean of a metric column (`arr.mean()`). -/
def rmean (l : List ℝ) : ℝ := l.sum / l.length

/-- Sample standard deviation with ddof = 1 (`arr.std(ddof=1)`). -/
def std1 (l : List ℝ) : ℝ :=
  Real.sqrt ((l.map (fun x => (x - rmean l) ^ 2)).sum / ((l.length : ℝ) - 1))

/-- Shallow embedding of `zscore(s)`. -/
def zscore (l : List ℝ) : List ℝ :=
  if l.length = 0 then []
  else l.map (fun x => (x - rmean l) / (if 0 < std1 l then std1 l else 1))

/-- The growth column: divide-by-zero of `mentions_7d / (mentions_28d/4)`
becomes NaN and is filled with 0. -/
def growthOf (m7 m28 : ℝ) : ℝ := if m28 / 4 = 0 then 0 else m7 / (m28 / 4)

/-- The recency column: divide-by-zero of `mentions_7d / mentions_28d`
becomes NaN and is filled with 0. -/
def recencyOf (m7 m28 : ℝ) : ℝ := if m28 = 0 then 0 else m7 / m28

/-- The aggregate columns feeding the score: short-window volume, long-window
volume, source breadth. -/
structure AggRow where
  mentions_7d : ℝ
  mentions_28d : ℝ
  source_breadth : ℝ

/-- Shallow embedding of the `interest_score` column: z-score the four metric
columns over the whole population and combine them with weights
1, 1.5, 0.5, 0.5. -/
def interest_score (rows : List AggRow) : List ℝ :=
  let zv := zscore (rows.map AggRow.mentions_7d)
  let zg := zscore (rows.map (fun r => growthOf r.mentions_7d r.mentions_28d))
  let zb := zscore (rows.map AggRow.source_breadth)
  let zr := zscore (rows.map (fun r => recencyOf r.mentions_7d r.mentions_28d))
  (List.range rows.length).map (fun i =>
    zv.getD i 0 + 1.5 * zg.getD i 0 + 0.5 * zb.getD i 0 + 0.5 * zr.getD i 0)

/-- Modelled from the spec: the z-score of member `i` is the value minus the
population mean, divided by the population sample standard deviation, with a
std of 0 yielding 0. -/
def spec_z (l : List ℝ) (i : ℕ) : ℝ :=
  if std1 l = 0 then 0 else (l.getD i 0 - rmean l) / std1 l

/-- Modelled from the spec: growth ratio is the short-window count divided by
one quarter of the long-window count, divide-by-zero treated as 0. -/
def spec_growth (m7 m28 : ℝ) : ℝ := if m28 = 0 then 0 else m7 / (m28 / 4)

/-- Modelled from the spec: recency share is the short-window count divided by
the long-window count, divide-by-zero treated as 0. -/
def spec_recency (m7 m28 : ℝ) : ℝ := if m28 = 0 then 0 else m7 / m28

/-- Modelled from the spec: composite score
1·z_volume + 1.5·z_growth + 0.5·z_breadth + 0.5·z_recency. -/
def spec_score (rows : List AggRow) (i : ℕ) : ℝ :=
  1 * spec_z (rows.map AggRow.mentions_7d) i
    + 1.5 * spec_z (rows.map (fun r => spec_growth r.mentions_7d r.mentions_28d)) i
    + 0.5 * spec_z (rows.map AggRow.source_breadth) i
    + 0.5 * spec_z (rows.map (fun r => spec_recency r.mentions_7d r.mentions_28d)) i

end

theorem std1_nonneg (l : List ℝ) : 0 ≤ std1 l := Real.sqrt_nonneg _

theorem eq_rmean_of_std1_eq_zero {l : List ℝ} (h : std1 l = 0) {x : ℝ}
    (hx : x ∈ l) : x = rmean l := by
  match l with
  | [] => cases hx
  | [a] =>
      rw [List.mem_singleton] at hx
      subst hx
      simp [rmean]
  | a :: b :: l' =>
      have hlen : 2 ≤ (a :: b :: l').length := by simp
      have hpos : (0 : ℝ) < ((a :: b :: l').length : ℝ) - 1 := by
        have : (2 : ℝ) ≤ ((a :: b :: l').length : ℝ) := by exact_mod_cast hlen
        linarith
      rw [std1, Real.sqrt_eq_zero'] at h
      set L := a :: b :: l' with hL
      set S := (L.map (fun y => (y - rmean L) ^ 2)).sum with hS
      have hSnn : 0 ≤ S := by
        rw [hS]
        apply List.sum_nonneg
        intro y hy
        rw [List.mem_map] at hy
        obtain ⟨z, _, hz⟩ := hy
        rw [← hz]
        positivity
      have hS0 : S = 0 := by
        have hdiv : S / ((L.length : ℝ) - 1) ≤ 0 := h
        by_contra hne
        have : 0 < S := lt_of_le_of_ne hSnn (Ne.symm hne)
        have : 0 < S / ((L.length : ℝ) - 1) := div_pos this hpos
        linarith
      have hterm : (x - rmean L) ^ 2 ≤ S := by
        rw [hS]
        refine List.single_le_sum ?_ _ (List.mem_map_of_mem _ hx)
        intro y hy
        rw [List.mem_map] at hy
        obtain ⟨z, _, hz⟩ := hy
        rw [← hz]
        positivity
      have hsq : (x - rmean L) ^ 2 = 0 := le_antisymm (hS0 ▸ hterm) (by positivity)
      have : x - rmean L = 0 := by
        exact pow_eq_zero_iff (by norm_num) |>.mp hsq
      linarith

theorem zscore_getD_eq_spec_z {l : List ℝ} {i : ℕ} (h : i < l.length) :
    (zscore l).getD i 0 = spec_z l i := by
  have hne : ¬ l.length = 0 := by omega
  rw [zscore, if_neg hne, spec_z,
    List.getD_eq_getElem _ _ (by simpa using h), List.getElem_map,
    List.getD_eq_getElem _ _ h]
  by_cases hs : std1 l = 0
  · rw [if_pos hs, hs, if_neg (lt_irrefl 0)]
    have hmem : l[i] ∈ l := List.getElem_mem h
    rw [eq_rmean_of_std1_eq_zero hs hmem, sub_self, zero_div]
  · have hpos : 0 < std1 l := lt_of_le_of_ne (std1_nonneg l) (Ne.symm hs)
    rw [if_neg hs, if_pos hpos]

theorem growthOf_eq_spec_growth (m7 m28 : ℝ) :
    growthOf m7 m28 = spec_growth m7 m28 := by
  rw [growthOf, spec_growth]
  by_cases h : m28 = 0
  · rw [if_pos (by rw [h]; norm_num), if_pos h]
  · rw [if_neg (by simp [div_eq_zero_iff, h]), if_neg h]

theorem recencyOf_eq_spec_recency (m7 m28 : ℝ) :
    recencyOf m7 m28 = spec_recency m7 m28 := rfl

/-- C4 — the composite interest score of each phrase equals the spec formula:
1·z_volume + 1.5·z_growth + 0.5·z_breadth + 0.5·z_recency, with z-scores over
the full population ((value − population mean) / sample std, std 0 giving z = 0
for every member), growth = short / (long/4) and recency = short / long, both
with divide-by-zero treated as 0. -/
theorem C4_interest_score_eq_spec (rows : List AggRow) (i : ℕ)
    (h : i < rows.length) :
    (interest_score rows).getD i 0 = spec_score rows i := by
  rw [interest_score, spec_score]
  rw [List.getD_eq_getElem _ _ (by simpa using h), List.getElem_map,
    List.getElem_range]
  have hg : rows.map (fun r => growthOf r.mentions_7d r.mentions_28d)
      = rows.map (fun r => spec_growth r.mentions_7d r.mentions_28d) :=
    List.map_congr_left (fun r _ => growthOf_eq_spec_growth _ _)
  have hr : rows.map (fun r => recencyOf r.mentions_7d r.mentions_28d)
      = rows.map (fun r => spec_recency r.mentions_7d r.mentions_28d) :=
    List.map_congr_left (fun r _ => recencyOf_eq_spec_recency _ _)
  rw [hg, hr]
  rw [zscore_getD_eq_spec_z (by simpa using h),
    zscore_getD_eq_spec_z (by simpa using h),
    zscore_getD_eq_spec_z (by simpa using h),
    zscore_getD_eq_spec_z (by simpa using h)]
  ring

/-- C4 — witness: the equality instantiated at a concrete two-phrase
population, index 0. -/
theorem C4_interest_score_eq_spec_witness :
    (interest_score [⟨1, 2, 3⟩, ⟨2, 0, 1⟩]).getD 0 0
      = spec_score [⟨1, 2, 3⟩, ⟨2, 0, 1⟩] 0 :=
  C4_interest_score_eq_spec [⟨1, 2, 3⟩, ⟨2, 0, 1⟩] 0 (by simp)

/-! ## Timestamp parsing and the `analyze` output files (claims C7, C8)

`analyze_prettydata.analyze` (lines 56-59, 67-72):

    if not os.path.exists(raw_csv):
        print(f"[warn] Missing ...")
        return                      # nothing is written

    df = pd.read_csv(raw_csv)
    df["date"] = pd.to_datetime(df.get("created_utc"), unit="s", utc=True, errors="coerce")
    df = df.dropna(subset=["date"])
    df["period"] = df["date"].dt.to_period("W").dt.start_time

`analyze_unsupervised.main` (line 108):

    df["created_utc"] = df["created_utc"].fillna(0).astype(int)

A raw row's `created_utc` is `some ts` when it holds epoch seconds and `none`
when it is missing or does not parse (NaN/NaT after coercion).  pandas weekly
periods are Monday-anchored (`W` is `W-SUN`: weeks end Sunday, start Monday),
the same bucket map as `weekfloor`. -/

/-- Raw row of the prettydata CSV, with the columns `analyze` uses. -/
structure PRRow where
  created_utc : Option ℤ
  text : String

/-- Rows surviving the timestamp coercion and `dropna`: (epoch seconds, text). -/
def ptKept (rows : List PRRow) : List (ℤ × String) :=
  rows.filterMap (fun r => r.created_utc.map (fun ts => (ts, r.text)))

/-- Observed weekly periods of the kept rows, ascending (`groupby("period")`
key order). -/
def ptPeriods (rows : List PRRow) : List ℤ :=
  dedupSort ((ptKept rows).map (fun p => weekfloor p.1))

/-- Weekly mention series of one term: one row per observed period, counting
kept documents whose text matches the term
(`df.groupby("period")["text"].apply(lambda col: sum(contains_term(t, term) for t in col))`).
The regex helper `contains_term` is passed in as a function. -/
def ptTermSeries (contains : String → String → Bool) (rows : List PRRow)
    (term : String) : List (ℤ × ℕ) :=
  (ptPeriods rows).map (fun w =>
    (w, ((ptKept rows).filter (fun p => weekfloor p.1 = w)).countP
      (fun p => contains p.2 term)))

/-- Raw unsupervised row: possibly-missing timestamp and the vectorized phrase
multiset of its text. -/
structure URow where
  created_utc : Option ℤ
  phrases : List String

/-- Line 108 of `analyze_unsupervised`: `fillna(0).astype(int)` keeps every
row, replacing a missing timestamp by epoch 0. -/
def uFillTs (rows : List URow) : List UDoc :=
  rows.map (fun r => ⟨r.created_utc.getD 0, r.phrases⟩)

/-- C8 — counterexample.  In `analyze_unsupervised` a row with an unparseable
(missing) timestamp is not dropped: `fillna(0)` maps it to epoch 0, so it
lands in the week bucket of day −3 (Monday 1969-12-29) and contributes a full
mention count there. -/
theorem C8_counterexample :
    uFillTs [⟨none, ["x y"]⟩] = [⟨0, ["x y"]⟩] ∧
    ctRows ["x y"] (uFillTs [⟨none, ["x y"]⟩]) = [(-3, "x y", 1)] ∧
    weekCount (uFillTs [⟨none, ["x y"]⟩]) (-3) "x y" = 1 := by decide

/-- C8 (amended) — in `analyze_prettydata` the claim holds: a row whose
timestamp does not parse is dropped before aggregation, so prepending it to
any corpus leaves every term's weekly series unchanged. -/
theorem C8_pt_unparseable_dropped (contains : String → String → Bool)
    (rows : List PRRow) (r : PRRow) (hr : r.created_utc = none) (term : String) :
    ptTermSeries contains (r :: rows) term = ptTermSeries contains rows term := by
  have hk : ptKept (r :: rows) = ptKept rows := by
    simp [ptKept, List.filterMap_cons, hr]
  rw [ptTermSeries, ptTermSeries, ptPeriods, ptPeriods, hk]

/-- C8 (amended) — witness: the invariance applied to a concrete
timestamp-less row on top of the empty corpus. -/
theorem C8_pt_unparseable_dropped_witness :
    ptTermSeries (fun _ _ => true) [⟨none, "no timestamp"⟩] "air fryer"
      = ptTermSeries (fun _ _ => true) [] "air fryer" :=
  C8_pt_unparseable_dropped (fun _ _ => true) [] ⟨none, "no timestamp"⟩ rfl
    "air fryer"

/-! ### The six output tables of `analyze` (claim C7) -/

/-- Punctuation characters stripped from token ends
(`w.strip(".,!?;:()[]{}'\"")`). -/
def PUNCT : List Char := ".,!?;:()[]\x7b\x7d'\"".data

/-- Shallow embedding of `tok(text)`: split on whitespace, strip surrounding
punctuation, lowercase. -/
def tok (text : String) : List String :=
  ((text.split (fun c => c.isWhitespace)).filter (fun w => w ≠ "")).map
    (fun w => String.map Char.toLower ⟨stripEnds (fun c => PUNCT.contains c) w.data⟩)

/-- The stopword list of `analyze_prettydata` (the `STOP` set). -/
def STOP : List String :=
  (("a an the and or of in to for with on at from by about into over after "
    ++ "before between out up down off above under again further then once "
    ++ "here there all any both each few more most other some such no nor "
    ++ "not only own same so than too very can will just don dont should "
    ++ "shouldve now is are was were be been being have has had having do "
    ++ "does did doing i me my myself we our ours ourselves you your yours "
    ++ "yourself yourselves he him his himself she her hers herself it its "
    ++ "itself they them their theirs themselves what which who whom this "
    ++ "that these those am isnt arent wasnt werent havent hasnt hadnt "
    ++ "doesnt didnt wont wouldnt shant shouldnt mustnt cant cannot could "
    ++ "couldnt might mightnt neednt look also thinking any tips feel feels "
    ++ "like really help please get got one two small big question thanks "
    ++ "thank").split (fun c => c = ' ')).filter (fun w => w ≠ "")

/-- All non-stop tokens of the kept documents (the `words` accumulator). -/
def corpusWords (texts : List String) : List String :=
  texts.flatMap (fun t => (tok t).filter (fun w => w ≠ "" ∧ w ∉ STOP))

/-- All adjacent-token bigrams whose tokens are both non-stop (the `bigrams`
accumulator). -/
def corpusBigrams (texts : List String) : List String :=
  texts.flatMap (fun t =>
    let tokens := tok t
    (tokens.zip tokens.tail).filterMap (fun p =>
      if p.1 ∉ STOP ∧ p.2 ∉ STOP then some (p.1 ++ " " ++ p.2) else none))

/-- `value_counts()`: one row per distinct value with its count, ordered by
count descending (stable, so ties stay in first-appearance order). -/
def valueCounts (l : List String) : List (String × ℕ) :=
  List.insertionSort byCountDesc (l.dedup.map (fun w => (w, l.count w)))

/-- The stacked `term_counts_over_time` table (`pd.concat(recs)`):
(period, Count, Term) rows, one block per term. -/
def ptTs (contains : String → String → Bool) (rows : List PRRow)
    (terms : List String) : List (ℤ × ℕ × String) :=
  terms.flatMap (fun term =>
    (ptTermSeries contains rows term).map (fun wc => (wc.1, wc.2, term)))

/-- The `trend_results` rows before sorting: per `groupby` term of the counts
table, the estimator run on its (period, Count) series. -/
def ptTrendRaw (fit : List ℚ → List ℚ → Except String (ℚ × ℚ))
    (contains : String → String → Bool) (rows : List PRRow)
    (terms : List String) : List TrendRow :=
  (dedupSortStr ((ptTs contains rows terms).map (fun r => r.2.2))).map
    (fun term =>
      let sub := ((ptTs contains rows terms).filter (fun r => r.2.2 = term)).map
        (fun r => (r.1, (r.2.1 : ℚ)))
      let ep := analyzeEstimate fit sub
      ⟨term, ep.1, ep.2⟩)

/-- The `trend_results` table, sorted by p-value ascending
(`sort_values("p_value")`). -/
def ptTrend (fit : List ℚ → List ℚ → Except String (ℚ × ℚ))
    (contains : String → String → Bool) (rows : List PRRow)
    (terms : List String) : List TrendRow :=
  List.insertionSort (fun a b : TrendRow => a.p_value ≤ b.p_value)
    (ptTrendRaw fit contains rows terms)

/-- One written output table of `analyze`. -/
inductive Artifact
  | words (rows : List (String × ℕ))
  | bigrams (rows : List (String × ℕ))
  | termCounts (rows : List (ℤ × ℕ × String))
  | trend (rows : List TrendRow)
  | terms (rows : List TrendRow)
deriving DecidableEq, Repr

/-- The input state of a run of `analyze`: the raw CSV file is missing, or it
exists and holds a (possibly empty) table. -/
inductive PTInput
  | missing
  | table (rows : List PRRow)

/-- The files a run of `analyze` writes (named without the `data/<prefix>_`
part): none at all when the raw CSV is missing — the early `return` on lines
56-59 — otherwise all six tables. -/
def analyzeOutputs (fit : List ℚ → List ℚ → Except String (ℚ × ℚ))
    (contains : String → String → Bool) (terms : List String) :
    PTInput → List (String × Artifact)
  | PTInput.missing => []
  | PTInput.table rows =>
      let texts := (ptKept rows).map Prod.snd
      let trend := ptTrend fit contains rows terms
      [("top_words.csv", Artifact.words (valueCounts (corpusWords texts))),
       ("top_bigrams.csv", Artifact.bigrams (valueCounts (corpusBigrams texts))),
       ("term_counts_over_time.csv", Artifact.termCounts (ptTs contains rows terms)),
       ("trend_results.csv", Artifact.trend trend),
       ("increasing_terms.csv", Artifact.terms (top_or_sig trend "+" 12)),
       ("decreasing_terms.csv", Artifact.terms (top_or_sig trend "-" 12))]

theorem flatMap_const_nil {α β : Type} (l : List α) :
    (l.flatMap (fun _ => ([] : List β))) = [] := by
  induction l with
  | nil => rfl
  | cons a l ih =>
      rw [List.flatMap_cons, List.nil_append]
      exact ih

/-- C7 — counterexample.  When the document table is absent, `analyze` returns
after a warning without writing anything: no output artifact is produced for
any of the six declared outputs. -/
theorem C7_counterexample :
    analyzeOutputs (olsFit (fun _ _ => 1)) (fun _ _ => true) ["air fryer"]
      PTInput.missing = [] := rfl

/-- C7 (amended) — when the raw CSV exists but its table is empty, `analyze`
does write all six declared outputs, each a well-formed empty table. -/
theorem C7_empty_table_outputs (fit : List ℚ → List ℚ → Except String (ℚ × ℚ))
    (contains : String → String → Bool) (terms : List String) :
    analyzeOutputs fit contains terms (PTInput.table []) =
      [("top_words.csv", Artifact.words []),
       ("top_bigrams.csv", Artifact.bigrams []),
       ("term_counts_over_time.csv", Artifact.termCounts []),
       ("trend_results.csv", Artifact.trend []),
       ("increasing_terms.csv", Artifact.terms []),
       ("decreasing_terms.csv", Artifact.terms [])] := by
  have hts : ptTs contains [] terms = [] := by
    have h1 : ∀ term, ptTermSeries contains ([] : List PRRow) term = [] := by
      intro term
      rfl
    rw [ptTs]
    calc terms.flatMap (fun term =>
          (ptTermSeries contains [] term).map (fun wc => (wc.1, wc.2, term)))
        = terms.flatMap (fun _ => []) := by
          apply List.flatMap_congr
          intro term _
          rw [h1]
          rfl
      _ = [] := flatMap_const_nil terms
  have htrend : ptTrend fit contains [] terms = [] := by
    rw [ptTrend, ptTrendRaw, hts]
    rfl
  show (let texts := (ptKept ([] : List PRRow)).map Prod.snd
        let trend := ptTrend fit contains [] terms
        [("top_words.csv", Artifact.words (valueCounts (corpusWords texts))),
         ("top_bigrams.csv", Artifact.bigrams (valueCounts (corpusBigrams texts))),
         ("term_counts_over_time.csv", Artifact.termCounts (ptTs contains [] terms)),
         ("trend_results.csv", Artifact.trend trend),
         ("increasing_terms.csv", Artifact.terms (top_or_sig trend "+" 12)),
         ("decreasing_terms.csv", Artifact.terms (top_or_sig trend "-" 12))]) = _
  rw [hts, htrend]
  rfl

end PLD
